import Mathlib

/-!
Verification of the dependency-graph visualizer (src/visualize_dependency.py).

The program builds a bounded-depth dependency graph for a package by
repeatedly querying an external lookup (pip show), and renders the result
as a PlantUML script.  This file embeds the three core functions —
the recursive graph builder `build_dependency_graph` (source lines 57-82),
the lookup-and-parse function `get_dependencies` (source lines 29-54) and
the renderer `generate_plantuml_script` (source lines 85-99) — as
executable Lean definitions and proves the specification claims about them.

Modelling conventions:
* The external `pip show` call is an input: the builder takes the dependency
  relation as a function `get_deps : PackageId → List PackageId`, and
  `get_dependencies` takes the outcome of the subprocess call as a value of
  `PipShowResult`.
* The Python `visited` set is modelled as a list in insertion order; the
  code only ever tests membership and inserts after a failed membership
  test, so the list and the set agree, and the list additionally records
  the order in which packages were expanded.  `get_dependencies` is invoked
  exactly once per package appended to `visited` (source lines 74-76), so
  an empty `visited` means no lookup was performed.
* The Python recursion has no explicit fuel; its call depth is bounded by
  `max_depth` because `current_depth` increases by one per call and the
  guard at line 72 stops any call with `current_depth > max_depth`.  The
  embedding makes that bound explicit as a fuel argument, set to
  `max_depth.toNat` at the entry point; the fuel-irrelevance theorem for
  claim C7 proves that any larger fuel yields the same result, i.e. the
  fuel never runs out and the Python recursion terminates.
* Python string operations (`split`, `strip`, `startswith`, `splitlines`)
  are implemented over `List Char` so that all definitions evaluate inside
  the kernel.  `py_splitlines` splits on the newline character; it differs
  from Python splitlines only on exotic terminators and a trailing newline
  (which produce extra lines that never start with the text Requires, so
  `get_dependencies` is unaffected).
-/

/-- A package is identified by its name (a string). -/
abbrev PackageId := String

/-- The mutable state of `build_dependency_graph` (source lines 68-69):
the set of already-expanded packages and the accumulated list of PlantUML
relation strings.  `visited` keeps insertion order. -/
structure BuildState where
  visited : List PackageId
  graph : List String
deriving DecidableEq

/-- The for-loop of `add_dependencies` (source lines 77-79): for each
dependency, append the relation string to the graph and recurse into the
dependency at depth + 1. -/
def add_deps_loop (recur : PackageId → Int → BuildState → BuildState)
    (pkg_name : PackageId) :
    List PackageId → Int → BuildState → BuildState
  | [], _, st => st
  | dep :: rest, current_depth, st =>
      add_deps_loop recur pkg_name rest current_depth
        (recur dep (current_depth + 1)
          { st with graph := st.graph ++ [pkg_name ++ " --> " ++ dep] })

/-- The inner recursive function `add_dependencies` of
`build_dependency_graph` (source lines 71-79): return unchanged when the
depth exceeds `max_depth` or the package was already visited; otherwise
mark the package visited, look up its dependencies and run the loop.
The fuel argument only bounds the recursion depth for Lean; claim C7
proves it is never exhausted when it starts at `max_depth.toNat`. -/
def add_dependencies (get_deps : PackageId → List PackageId) (max_depth : Int) :
    Nat → PackageId → Int → BuildState → BuildState
  | 0, pkg_name, current_depth, st =>
      if current_depth > max_depth ∨ pkg_name ∈ st.visited then st
      else { st with visited := st.visited ++ [pkg_name] }
  | fuel + 1, pkg_name, current_depth, st =>
      if current_depth > max_depth ∨ pkg_name ∈ st.visited then st
      else
        add_deps_loop
          (fun dep dd s => add_dependencies get_deps max_depth fuel dep dd s)
          pkg_name (get_deps pkg_name) current_depth
          { st with visited := st.visited ++ [pkg_name] }

/-- The final builder state: `build_dependency_graph` (source lines 57-82)
starts the recursion at the root package with `current_depth = 1` and empty
visited set and graph. -/
def build_dependency_state (get_deps : PackageId → List PackageId)
    (package_name : PackageId) (max_depth : Int) : BuildState :=
  add_dependencies get_deps max_depth max_depth.toNat package_name 1 ⟨[], []⟩

/-- `build_dependency_graph` returns the accumulated relation list
(source line 82). -/
def build_dependency_graph (get_deps : PackageId → List PackageId)
    (package_name : PackageId) (max_depth : Int) : List String :=
  (build_dependency_state get_deps package_name max_depth).graph

/-- The builder run with an arbitrary fuel allowance, used to state that the
result does not depend on the allowance once it reaches `max_depth.toNat`
(the depth bound of the Python recursion). -/
def build_dependency_graph_fuel (get_deps : PackageId → List PackageId)
    (package_name : PackageId) (max_depth : Int) (fuel : Nat) : List String :=
  (add_dependencies get_deps max_depth fuel package_name 1 ⟨[], []⟩).graph

/-- Model of the Python test that a char list starts with a given char
list, used for both startswith and split. -/
def chars_startsWith : List Char → List Char → Bool
  | [], _ => true
  | _ :: _, [] => false
  | a :: as, b :: bs => if a = b then chars_startsWith as bs else false

/-- Model of Python str.split with a non-empty separator: split on each
non-overlapping occurrence of `sep`, scanning left to right.  The fuel is
the length of the scanned list; each step consumes at least one character,
so fuel equal to the length of the input is exact (see `py_split`). -/
def chars_split (sep : List Char) : Nat → List Char → List (List Char)
  | _, [] => [[]]
  | 0, s => [s]
  | fuel + 1, c :: rest =>
      if chars_startsWith sep (c :: rest) then
        [] :: chars_split sep fuel ((c :: rest).drop sep.length)
      else
        match chars_split sep fuel rest with
        | [] => [c :: rest]
        | grp :: grps => (c :: grp) :: grps

/-- Model of Python str.strip with no argument: drop whitespace from both
ends. -/
def chars_strip (s : List Char) : List Char :=
  ((s.dropWhile Char.isWhitespace).reverse.dropWhile Char.isWhitespace).reverse

/-- Python `s.split(sep)` for a non-empty separator, at `String` level. -/
def py_split (s sep : String) : List String :=
  (chars_split sep.data s.data.length s.data).map String.mk

/-- Python `s.strip()`, at `String` level. -/
def py_strip (s : String) : String :=
  String.mk (chars_strip s.data)

/-- Python `s.startswith(pre)`, at `String` level. -/
def py_startswith (s pre : String) : Bool :=
  chars_startsWith pre.data s.data

/-- Python `s.splitlines()`, modelled as splitting on the newline
character (see the module comment for the inessential differences). -/
def py_splitlines (s : String) : List String :=
  py_split s "\n"

/-- Outcome of the external call `subprocess.run(["pip", "show", name],
check=True)` (source lines 40-42): success with captured stdout, a
non-zero exit (which raises `CalledProcessError`, in particular for a
missing package), or an unavailable `pip` executable (which raises
`FileNotFoundError`). -/
inductive PipShowResult where
  | success (stdout : String)
  | calledProcessError
  | fileNotFoundError
deriving DecidableEq

deriving instance DecidableEq for Except

/-- The parsing loop of `get_dependencies` (source lines 47-54): scan the
output lines for the first one starting with Requires, take the text after
the first colon, strip it, and if non-empty split it on comma-space,
keeping the stripped form of every non-empty piece.  Indexing
`line.split(":")[1]` raises `IndexError` when the line has no colon; that
uncaught exception is the `Except.error` case. -/
def requires_loop : List String → Except Unit (List String)
  | [] => Except.ok []
  | line :: rest =>
      if py_startswith line "Requires" then
        match py_split line ":" with
        | _ :: second :: _ =>
            let requires_line := py_strip second
            if requires_line ≠ "" then
              Except.ok
                (((py_split requires_line ", ").filter (fun dep => dep ≠ "")).map
                  py_strip)
            else Except.ok []
        | _ => Except.error ()
      else requires_loop rest

/-- `get_dependencies` (source lines 29-54).  The first component of the
`ok` result is the list of diagnostic messages printed; the second is the
returned dependency list.  `Except.error` models an uncaught Python
exception escaping the function: only `CalledProcessError` is caught by
the `try/except` at lines 39-45. -/
def get_dependencies (package_name : String) (pip_show : PipShowResult) :
    Except Unit (List String × List String) :=
  match pip_show with
  | PipShowResult.calledProcessError =>
      Except.ok (["Error: Could not fetch dependencies for " ++ package_name], [])
  | PipShowResult.fileNotFoundError => Except.error ()
  | PipShowResult.success stdout =>
      match requires_loop (py_splitlines stdout) with
      | Except.ok deps => Except.ok ([], deps)
      | Except.error e => Except.error e

/-- `generate_plantuml_script` (source lines 85-99): header line, one line
per relation in input order, footer line, built by left-to-right string
concatenation. -/
def generate_plantuml_script (graph : List String) : String :=
  (graph.foldl
    (fun plantuml_script relation => plantuml_script ++ (relation ++ "\n"))
    "@startuml\n") ++ "@enduml"

/-- The edge-to-relation-string formatting of source line 78
(the f-string inside the builder loop). -/
def edge_relation (e : PackageId × PackageId) : String :=
  e.1 ++ " --> " ++ e.2

/-- The renderer of the specification, over edge pairs: format each edge
as at source line 78 and feed the relation strings to
`generate_plantuml_script`. -/
def renderGraph (edges : List (PackageId × PackageId)) : String :=
  generate_plantuml_script (edges.map edge_relation)

/-- Test relation for claim C1: a two-cycle, A depends on B and B on A. -/
def lookupAB : PackageId → List PackageId := fun p =>
  if p = "A" then ["B"] else if p = "B" then ["A"] else []

/-- Test relation for claim C2: X depends on Y and Z, Y on W, Z on
nothing. -/
def lookupXYZW : PackageId → List PackageId := fun p =>
  if p = "X" then ["Y", "Z"] else if p = "Y" then ["W"] else []

/-- Test relation for claim C3: C appears as a dependency under the two
parents A and B, and itself depends on D. -/
def lookupDiamond : PackageId → List PackageId := fun p =>
  if p = "R" then ["A", "B"]
  else if p = "A" then ["C"]
  else if p = "B" then ["C"]
  else if p = "C" then ["D"]
  else []

/-- An edge string recorded by the builder is sound for the relation
`get_deps` when it is the line-78 formatting of a pair (p, d) with d an
actual lookup result of p. -/
def edge_sound (get_deps : PackageId → List PackageId) (s : String) : Prop :=
  ∃ p d, s = p ++ " --> " ++ d ∧ d ∈ get_deps p

/-- Model of the Python join of a list of char lists with a separator
(the char-list level of `joinWith`), used to describe which query outputs
carry a well-formed Requires field. -/
def joinSep (sep : List Char) : List (List Char) → List Char
  | [] => []
  | [p] => p
  | p :: q :: rest => p ++ sep ++ joinSep sep (q :: rest)

/-- Model of the Python join of a list of strings with a separator, used
to build the query outputs quantified over in the claim about the
Requires field. -/
def joinWith (sep : String) : List String → String
  | [] => ""
  | [s] => s
  | s :: t :: rest => s ++ sep ++ joinWith sep (t :: rest)

/-- The builder loop only looks at its callback through calls at
depth + 1, so pointwise-equal callbacks give equal results. -/
theorem add_deps_loop_congr (recur₁ recur₂ : PackageId → Int → BuildState → BuildState)
    (pkg : PackageId) (deps : List PackageId) (depth : Int)
    (h : ∀ d s, recur₁ d (depth + 1) s = recur₂ d (depth + 1) s) :
    ∀ st, add_deps_loop recur₁ pkg deps depth st = add_deps_loop recur₂ pkg deps depth st := by
  induction deps with
  | nil => intro st; rfl
  | cons d rest ih =>
      intro st
      simp only [add_deps_loop]
      rw [h]
      exact ih _

/-- One extra unit of fuel changes nothing once the fuel covers the
remaining depth budget `max_depth + 1 - current_depth`. -/
theorem add_dependencies_fuel_succ (get_deps : PackageId → List PackageId) (max_depth : Int) :
    ∀ (fuel : Nat) (pkg : PackageId) (current_depth : Int) (st : BuildState),
      (max_depth + 1 - current_depth).toNat ≤ fuel →
      add_dependencies get_deps max_depth fuel pkg current_depth st =
        add_dependencies get_deps max_depth (fuel + 1) pkg current_depth st := by
  intro fuel
  induction fuel with
  | zero =>
      intro pkg d st h
      have hd : d > max_depth := by omega
      simp only [add_dependencies]
      rw [if_pos (Or.inl hd), if_pos (Or.inl hd)]
  | succ fuel ih =>
      intro pkg d st h
      simp only [add_dependencies]
      by_cases hg : d > max_depth ∨ pkg ∈ st.visited
      · rw [if_pos hg, if_pos hg]
      · rw [if_neg hg, if_neg hg]
        apply add_deps_loop_congr
        intro dep s
        have hdm : ¬ d > max_depth := fun hc => hg (Or.inl hc)
        exact ih dep (d + 1) s (by omega)

/-- Fuel irrelevance: any fuel at least the remaining depth budget gives
the same result as any larger fuel.  This is the termination argument of
the Python recursion made explicit. -/
theorem add_dependencies_fuel_irrel (get_deps : PackageId → List PackageId) (max_depth : Int)
    (fuel₁ fuel₂ : Nat) (pkg : PackageId) (current_depth : Int) (st : BuildState)
    (h₁ : (max_depth + 1 - current_depth).toNat ≤ fuel₁) (h₂ : fuel₁ ≤ fuel₂) :
    add_dependencies get_deps max_depth fuel₁ pkg current_depth st =
      add_dependencies get_deps max_depth fuel₂ pkg current_depth st := by
  have key : ∀ k : Nat,
      add_dependencies get_deps max_depth fuel₁ pkg current_depth st =
        add_dependencies get_deps max_depth (fuel₁ + k) pkg current_depth st := by
    intro k
    induction k with
    | zero => rfl
    | succ k ih =>
        rw [ih]
        exact add_dependencies_fuel_succ get_deps max_depth (fuel₁ + k) pkg current_depth st
          (Nat.le_trans h₁ (Nat.le_add_right _ _))
  have hk : fuel₂ = fuel₁ + (fuel₂ - fuel₁) := by omega
  rw [hk]
  exact key _

/-- The loop never removes visited entries, and it preserves freedom from
duplicates as long as its callback does. -/
theorem add_deps_loop_nodup (recur : PackageId → Int → BuildState → BuildState)
    (pkg : PackageId) (deps : List PackageId) (depth : Int)
    (hr : ∀ d dd s, s.visited.Nodup → (recur d dd s).visited.Nodup) :
    ∀ st : BuildState, st.visited.Nodup →
      (add_deps_loop recur pkg deps depth st).visited.Nodup := by
  induction deps with
  | nil => intro st h; exact h
  | cons d rest ih =>
      intro st h
      simp only [add_deps_loop]
      exact ih _ (hr _ _ _ h)

/-- A package is appended to `visited` only after the membership test at
source line 72 fails, so the visited list never acquires a duplicate:
every package is expanded at most once. -/
theorem add_dependencies_nodup (get_deps : PackageId → List PackageId) (max_depth : Int) :
    ∀ (fuel : Nat) (pkg : PackageId) (current_depth : Int) (st : BuildState),
      st.visited.Nodup →
      (add_dependencies get_deps max_depth fuel pkg current_depth st).visited.Nodup := by
  intro fuel
  induction fuel with
  | zero =>
      intro pkg d st h
      simp only [add_dependencies]
      by_cases hg : d > max_depth ∨ pkg ∈ st.visited
      · rw [if_pos hg]; exact h
      · rw [if_neg hg]
        have hp : pkg ∉ st.visited := fun hc => hg (Or.inr hc)
        simp [List.nodup_append, h, hp]
  | succ fuel ih =>
      intro pkg d st h
      simp only [add_dependencies]
      by_cases hg : d > max_depth ∨ pkg ∈ st.visited
      · rw [if_pos hg]; exact h
      · rw [if_neg hg]
        apply add_deps_loop_nodup _ _ _ _ (fun d' dd s hs => ih d' dd s hs)
        have hp : pkg ∉ st.visited := fun hc => hg (Or.inr hc)
        simp [List.nodup_append, h, hp]

/-- Every relation string the loop appends comes from an actual pair of
the current package and one of the dependencies handed to the loop. -/
theorem add_deps_loop_sound (get_deps : PackageId → List PackageId)
    (recur : PackageId → Int → BuildState → BuildState) (pkg : PackageId) (depth : Int)
    (hr : ∀ d dd s, (∀ x ∈ s.graph, edge_sound get_deps x) →
      ∀ x ∈ (recur d dd s).graph, edge_sound get_deps x) :
    ∀ deps : List PackageId, (∀ d ∈ deps, d ∈ get_deps pkg) →
      ∀ st : BuildState, (∀ x ∈ st.graph, edge_sound get_deps x) →
        ∀ x ∈ (add_deps_loop recur pkg deps depth st).graph, edge_sound get_deps x := by
  intro deps
  induction deps with
  | nil => intro _ st hst; exact hst
  | cons d rest ih =>
      intro hdeps st hst
      simp only [add_deps_loop]
      apply ih (fun d' hd' => hdeps d' (List.mem_cons_of_mem _ hd'))
      apply hr
      intro x hx
      simp only [List.mem_append, List.mem_singleton] at hx
      rcases hx with hx | hx
      · exact hst x hx
      · exact ⟨pkg, d, hx, hdeps d (List.mem_cons_self _ _)⟩

/-- Every relation string the builder records is a real lookup pair:
the loop at source lines 77-78 only appends strings built from the
current package and a member of its lookup result. -/
theorem add_dependencies_sound (get_deps : PackageId → List PackageId) (max_depth : Int) :
    ∀ (fuel : Nat) (pkg : PackageId) (current_depth : Int) (st : BuildState),
      (∀ x ∈ st.graph, edge_sound get_deps x) →
      ∀ x ∈ (add_dependencies get_deps max_depth fuel pkg current_depth st).graph,
        edge_sound get_deps x := by
  intro fuel
  induction fuel with
  | zero =>
      intro pkg d st hst
      simp only [add_dependencies]
      by_cases hg : d > max_depth ∨ pkg ∈ st.visited
      · rw [if_pos hg]; exact hst
      · rw [if_neg hg]; exact hst
  | succ fuel ih =>
      intro pkg d st hst
      simp only [add_dependencies]
      by_cases hg : d > max_depth ∨ pkg ∈ st.visited
      · rw [if_pos hg]; exact hst
      · rw [if_neg hg]
        exact add_deps_loop_sound get_deps _ pkg d
          (fun d' dd s hs => ih d' dd s hs) (get_deps pkg) (fun _ hd => hd) _ hst

/-- When the callback returns its state unchanged (as it does once the
depth guard fires), the loop reduces to appending one relation string per
dependency, in dependency-list order. -/
theorem add_deps_loop_graph_of_id (recur : PackageId → Int → BuildState → BuildState)
    (pkg : PackageId) (depth : Int)
    (h : ∀ d s, recur d (depth + 1) s = s) :
    ∀ (deps : List PackageId) (st : BuildState),
      add_deps_loop recur pkg deps depth st =
        { st with graph := st.graph ++ deps.map (fun dep => pkg ++ " --> " ++ dep) } := by
  intro deps
  induction deps with
  | nil => intro st; simp [add_deps_loop]
  | cons d rest ih =>
      intro st
      simp only [add_deps_loop, h]
      rw [ih]
      simp [List.append_assoc]

/-- Unrolling of the concatenation loop of `generate_plantuml_script`
at the level of character data. -/
theorem foldl_append_newline_data :
    ∀ (l : List String) (init : String),
      (l.foldl (fun acc r => acc ++ (r ++ "\n")) init).data =
        init.data ++ (l.map (fun r => (r ++ "\n").data)).flatten := by
  intro l
  induction l with
  | nil => intro init; simp
  | cons r rest ih =>
      intro init
      simp only [List.foldl_cons, List.map_cons, List.flatten_cons]
      rw [ih]
      simp [String.data_append, List.append_assoc]

/-- Claim C1: for the cyclic relation where A depends on B and B depends
on A, `build_dependency_graph` at max depth 5 terminates and returns
exactly the two relation strings for the edges (A,B) and (B,A), with no
further or duplicated edges, because each node is expanded at most once. -/
theorem c1_cycle_terminates_exact_edges :
    build_dependency_graph lookupAB "A" 5 = ["A --> B", "B --> A"] := by decide

/-- Claim C2, counterexample: with lookup X to [Y, Z], Y to [W], Z to
nothing and max depth 2, the builder does not return the edges in the
order (X,Y), (X,Z), (Y,W) stated by the claim, because the traversal is
depth first: after recording (X,Y) it immediately expands Y and records
(Y,W) before returning to record (X,Z). -/
theorem c2_counterexample_claimed_order :
    build_dependency_graph lookupXYZW "X" 2 ≠ ["X --> Y", "X --> Z", "Y --> W"] := by
  decide

/-- Claim C2, amended: the builder returns exactly the edges (X,Y), (Y,W),
(X,Z), in that depth-first discovery order, and W is discovered at depth
3 > 2 so it is never expanded (it is not in the visited list and no edge
with source W appears in the graph). -/
theorem c2_depth_first_discovery_order :
    build_dependency_state lookupXYZW "X" 2 =
        ⟨["X", "Y", "Z"], ["X --> Y", "Y --> W", "X --> Z"]⟩ ∧
      "W" ∉ (build_dependency_state lookupXYZW "X" 2).visited := by decide

/-- Claim C3: for every dependency relation and every max depth, each
package is expanded at most once (the visited list, which records one
entry per expansion in expansion order, has no duplicates).  In the
concrete diamond relation, C appears as a dependency under both A and B:
an edge is recorded for each occurrence (A to C and B to C both appear),
but C occurs only once in the visited list and its own dependency edge
(C,D) appears right after the first occurrence under A — the first
occurrence reached in the traversal is the one expanded. -/
theorem c3_expanded_at_most_once :
    (∀ (get_deps : PackageId → List PackageId) (root : PackageId) (max_depth : Int),
        (build_dependency_state get_deps root max_depth).visited.Nodup) ∧
      build_dependency_state lookupDiamond "R" 5 =
        ⟨["R", "A", "C", "D", "B"],
          ["R --> A", "A --> C", "C --> D", "R --> B", "B --> C"]⟩ := by
  constructor
  · intro get_deps root max_depth
    exact add_dependencies_nodup get_deps max_depth max_depth.toNat root 1 ⟨[], []⟩
      (by simp)
  · decide

/-- Claim C4, counterexample: when the query tool itself is unavailable,
`subprocess.run` raises `FileNotFoundError`, which the `try/except` at
source lines 39-45 does not catch (it only catches `CalledProcessError`),
so `get_dependencies` propagates an exception instead of emitting the
diagnostic and returning an empty sequence. -/
theorem c4_counterexample_tool_unavailable :
    get_dependencies "numpy" PipShowResult.fileNotFoundError = Except.error () ∧
      get_dependencies "numpy" PipShowResult.fileNotFoundError ≠
        Except.ok (["Error: Could not fetch dependencies for numpy"], []) := by decide

/-- Claim C4, amended: when the external query exits non-zero (which is
also what happens for a missing package), `get_dependencies` prints the
diagnostic message and returns an empty sequence; but when the query tool
is unavailable the exception propagates uncaught. -/
theorem c4_soft_fail_only_nonzero_exit :
    ∀ package_name : String,
      get_dependencies package_name PipShowResult.calledProcessError =
          Except.ok (["Error: Could not fetch dependencies for " ++ package_name], []) ∧
        get_dependencies package_name PipShowResult.fileNotFoundError =
          Except.error () := by
  intro package_name
  exact ⟨rfl, rfl⟩

/-- Claim C5, counterexample: the code splits the Requires value on the
exact two-character separator of a comma followed by a space, so a value
whose items are separated by a comma without a following space is not
split: the claim predicts the identifiers a and b, the code returns the
single identifier containing the comma. -/
theorem c5_counterexample_comma_without_space :
    get_dependencies "p" (PipShowResult.success "Requires: a,b") =
        Except.ok ([], ["a,b"]) ∧
      get_dependencies "p" (PipShowResult.success "Requires: a,b") ≠
        Except.ok ([], ["a", "b"]) := by decide

/-- Claim C6: with max depth 1 the root is expanded at depth 1 and every
dependency is reached at depth 2, where the guard stops expansion, so
every recorded relation string has the root as its source. -/
theorem c6_max_depth_one_edges_from_root :
    ∀ (get_deps : PackageId → List PackageId) (root : PackageId) (s : String),
      s ∈ build_dependency_graph get_deps root 1 →
      ∃ dep, s = root ++ " --> " ++ dep := by
  intro get_deps root s hs
  unfold build_dependency_graph build_dependency_state at hs
  have h1 : ((1 : Int)).toNat = 1 := rfl
  rw [h1] at hs
  simp only [add_dependencies] at hs
  rw [if_neg (by simp)] at hs
  rw [add_deps_loop_graph_of_id] at hs
  · simp only [List.nil_append, List.mem_map] at hs
    obtain ⟨dep, _, hdep⟩ := hs
    exact ⟨dep, hdep.symm⟩
  · intro d s'
    show add_dependencies get_deps 1 0 d (1 + 1) s' = s'
    simp only [add_dependencies]
    rw [if_pos (Or.inl (by norm_num))]

/-- Witness for claim C6 at a concrete input discharging the membership
hypothesis. -/
theorem c6_witness :
    ("A --> B" ∈ build_dependency_graph lookupAB "A" 1) ∧
      ∃ dep, "A --> B" = "A" ++ " --> " ++ dep :=
  ⟨by decide, c6_max_depth_one_edges_from_root lookupAB "A" "A --> B" (by decide)⟩

/-- Claim C7: for every dependency relation (cyclic ones included) and
every max depth at least 1, the builder terminates — made explicit here as
fuel irrelevance: the recursion-depth allowance `max_depth.toNat` used by
`build_dependency_graph` is already enough, and any extra allowance gives
the same result, because the depth guard at source line 72 bottoms the
recursion out — and every recorded relation string is a real lookup
result pair. -/
theorem c7_terminates_and_edges_real :
    ∀ (get_deps : PackageId → List PackageId) (root : PackageId) (max_depth : Int),
      1 ≤ max_depth →
      (∀ extra : Nat,
          build_dependency_graph_fuel get_deps root max_depth (max_depth.toNat + extra) =
            build_dependency_graph get_deps root max_depth) ∧
        ∀ s ∈ build_dependency_graph get_deps root max_depth, edge_sound get_deps s := by
  intro get_deps root max_depth _
  constructor
  · intro extra
    unfold build_dependency_graph_fuel build_dependency_graph build_dependency_state
    rw [← add_dependencies_fuel_irrel get_deps max_depth max_depth.toNat
      (max_depth.toNat + extra) root 1 ⟨[], []⟩ (by omega) (Nat.le_add_right _ _)]
  · intro s hs
    exact add_dependencies_sound get_deps max_depth max_depth.toNat root 1 ⟨[], []⟩
      (by simp) s hs

/-- Witness for claim C7 at a concrete input discharging the max-depth
hypothesis. -/
theorem c7_witness :
    ((1 : Int) ≤ 5) ∧
      ((∀ extra : Nat,
          build_dependency_graph_fuel lookupAB "A" 5 ((5 : Int).toNat + extra) =
            build_dependency_graph lookupAB "A" 5) ∧
        ∀ s ∈ build_dependency_graph lookupAB "A" 5, edge_sound lookupAB s) :=
  ⟨by decide, c7_terminates_and_edges_real lookupAB "A" 5 (by decide)⟩

/-- Claim C8: the renderer is a pure function of the edge sequence — a
fixed header, one relation line per edge in exactly the input order, and
a footer with no trailing newline; determinism is immediate because it is
a function of its input.  The second conjunct checks the example: the
edges (A,B) and (A,C) render to the lines A to B then A to C between the
start and end markers. -/
theorem c8_render_deterministic_ordered :
    (∀ edges : List (PackageId × PackageId),
        renderGraph edges =
          "@startuml\n" ++
            String.join (edges.map (fun e => edge_relation e ++ "\n")) ++ "@enduml") ∧
      renderGraph [("A", "B"), ("A", "C")] = "@startuml\nA --> B\nA --> C\n@enduml" := by
  constructor
  · intro edges
    apply String.ext
    simp only [renderGraph, generate_plantuml_script, String.data_append]
    rw [foldl_append_newline_data]
    simp [String.data_append, List.map_map, List.append_assoc, Function.comp_def]
  · decide

/-- Claim C9: when the configured max depth is zero or negative, the
guard at source line 72 fires already for the root call at depth 1, so
the builder returns an empty graph and an empty visited list — and since
`get_dependencies` is called exactly once per package added to the
visited set (source lines 74-76), no dependency lookup is performed at
all: the root itself is never expanded. -/
theorem c9_nonpositive_depth_empty :
    ∀ (get_deps : PackageId → List PackageId) (root : PackageId) (max_depth : Int),
      max_depth ≤ 0 →
      build_dependency_graph get_deps root max_depth = [] ∧
        (build_dependency_state get_deps root max_depth).visited = [] := by
  intro get_deps root max_depth hM
  have hstate : build_dependency_state get_deps root max_depth = ⟨[], []⟩ := by
    unfold build_dependency_state
    rw [Int.toNat_of_nonpos hM]
    simp only [add_dependencies]
    rw [if_pos (Or.inl (by omega))]
  exact ⟨by unfold build_dependency_graph; rw [hstate], by rw [hstate]⟩

/-- Witness for claim C9 at a concrete input discharging the nonpositive
max-depth hypothesis. -/
theorem c9_witness :
    ((0 : Int) ≤ 0) ∧
      (build_dependency_graph (fun _ => []) "A" 0 = [] ∧
        (build_dependency_state (fun _ => []) "A" 0).visited = []) :=
  ⟨by decide, c9_nonpositive_depth_empty (fun _ => []) "A" 0 (by decide)⟩

/-- Claim C10: rendering the empty relation list yields exactly the
header line followed by the footer marker, with no relation lines in
between and no trailing newline. -/
theorem c10_empty_graph_script :
    generate_plantuml_script [] = "@startuml\n@enduml" := by decide

/-- A char list always starts with itself, whatever follows. -/
theorem chars_startsWith_self_append (l t : List Char) :
    chars_startsWith l (l ++ t) = true := by
  induction l with
  | nil => rfl
  | cons c cs ih => simp [chars_startsWith, ih]

/-- A char list starting with a different character does not start with
the separator. -/
theorem chars_startsWith_cons_ne (c x : Char) (cs xs : List Char) (h : c ≠ x) :
    chars_startsWith (c :: cs) (x :: xs) = false := by
  simp [chars_startsWith, h]

/-- Splitting a list that nowhere contains the head character of the
separator leaves it in one piece, for any fuel. -/
theorem chars_split_of_not_mem (c : Char) (cs : List Char) :
    ∀ (xs : List Char) (fuel : Nat), c ∉ xs → chars_split (c :: cs) fuel xs = [xs] := by
  intro xs
  induction xs with
  | nil => intro fuel _; cases fuel <;> rfl
  | cons x rest ih =>
      intro fuel hc
      have hx : c ≠ x := fun h => hc (h ▸ List.mem_cons_self _ _)
      have hrest : c ∉ rest := fun h => hc (List.mem_cons_of_mem _ h)
      cases fuel with
      | zero => rfl
      | succ f =>
          simp only [chars_split, chars_startsWith_cons_ne c x cs rest hx]
          rw [ih f hrest]
          simp

/-- The result of `chars_split` does not depend on the fuel once the fuel
covers the length of the input. -/
theorem chars_split_fuel_congr (c : Char) (cs : List Char) :
    ∀ (fuel₁ fuel₂ : Nat) (xs : List Char), xs.length ≤ fuel₁ → xs.length ≤ fuel₂ →
      chars_split (c :: cs) fuel₁ xs = chars_split (c :: cs) fuel₂ xs := by
  intro fuel₁
  induction fuel₁ with
  | zero =>
      intro fuel₂ xs h1 _
      have hxs : xs = [] := List.length_eq_zero.mp (Nat.le_zero.mp h1)
      subst hxs
      cases fuel₂ <;> rfl
  | succ f ih =>
      intro fuel₂ xs h1 h2
      cases xs with
      | nil => cases fuel₂ <;> rfl
      | cons x rest =>
          cases fuel₂ with
          | zero => simp at h2
          | succ f₂ =>
              simp only [chars_split]
              have hx1 : rest.length ≤ f := by
                simp only [List.length_cons] at h1; omega
              have hx2 : rest.length ≤ f₂ := by
                simp only [List.length_cons] at h2; omega
              by_cases hs : chars_startsWith (c :: cs) (x :: rest) = true
              · rw [if_pos hs, if_pos hs]
                have hd : ((x :: rest).drop (c :: cs).length).length ≤ rest.length := by
                  simp [List.length_drop]
                congr 1
                exact ih f₂ _ (Nat.le_trans hd hx1) (Nat.le_trans hd hx2)
              · rw [if_neg hs, if_neg hs]
                rw [ih f₂ rest hx1 hx2]

/-- Splitting at the first separator occurrence: when the head character
of the separator does not occur in the piece before it, the split yields
that piece and continues after the separator. -/
theorem chars_split_append (c : Char) (cs : List Char) :
    ∀ (p t : List Char) (fuel : Nat), c ∉ p → (p ++ (c :: cs) ++ t).length ≤ fuel →
      chars_split (c :: cs) fuel (p ++ (c :: cs) ++ t) =
        p :: chars_split (c :: cs) t.length t := by
  intro p
  induction p with
  | nil =>
      intro t fuel _ hf
      simp only [List.nil_append] at hf ⊢
      cases fuel with
      | zero => simp [List.length_append] at hf
      | succ f =>
          have hlen : t.length ≤ f := by
            simp only [List.length_append, List.length_cons] at hf; omega
          show chars_split (c :: cs) (f + 1) (c :: (cs ++ t)) = _
          simp only [chars_split]
          rw [if_pos (by simpa using chars_startsWith_self_append (c :: cs) t)]
          have hdrop : (c :: (cs ++ t)).drop (c :: cs).length = t := by
            simp [List.drop_left]
          rw [hdrop, chars_split_fuel_congr c cs f t.length t hlen (Nat.le_refl _)]
  | cons x p' ih =>
      intro t fuel hc hf
      have hx : c ≠ x := fun h => hc (h ▸ List.mem_cons_self _ _)
      have hp' : c ∉ p' := fun h => hc (List.mem_cons_of_mem _ h)
      cases fuel with
      | zero => simp [List.length_append] at hf
      | succ f =>
          have hf' : (p' ++ (c :: cs) ++ t).length ≤ f := by
            simp only [List.cons_append, List.length_cons] at hf
            simpa using hf
          show chars_split (c :: cs) (f + 1) (x :: (p' ++ (c :: cs) ++ t)) = _
          simp only [chars_split, chars_startsWith_cons_ne c x cs _ hx]
          rw [ih t f hp' hf']
          simp

/-- Joining non-empty pieces and splitting again is the identity, as long
as the head character of the separator occurs in no piece. -/
theorem chars_split_joinSep (c : Char) (cs : List Char) :
    ∀ (parts : List (List Char)) (fuel : Nat), parts ≠ [] → (∀ p ∈ parts, c ∉ p) →
      (joinSep (c :: cs) parts).length ≤ fuel →
      chars_split (c :: cs) fuel (joinSep (c :: cs) parts) = parts := by
  intro parts
  induction parts with
  | nil => intro fuel h _ _; exact absurd rfl h
  | cons p rest ih =>
      intro fuel _ hmem hf
      cases rest with
      | nil =>
          simp only [joinSep] at hf ⊢
          exact chars_split_of_not_mem c cs p fuel (hmem p (List.mem_cons_self _ _))
      | cons q rs =>
          simp only [joinSep] at hf ⊢
          rw [chars_split_append c cs p (joinSep (c :: cs) (q :: rs)) fuel
            (hmem p (List.mem_cons_self _ _)) hf]
          congr 1
          exact ih _ (by simp) (fun r hr => hmem r (List.mem_cons_of_mem _ hr))
            (Nat.le_refl _)

/-- A character occurring neither in the separator nor in any piece does
not occur in the join. -/
theorem not_mem_joinSep (ch : Char) (sep : List Char) :
    ∀ parts : List (List Char), ch ∉ sep → (∀ p ∈ parts, ch ∉ p) →
      ch ∉ joinSep sep parts := by
  intro parts hsep
  induction parts with
  | nil => intro _; simp [joinSep]
  | cons p rest ih =>
      intro hmem
      cases rest with
      | nil =>
          simpa [joinSep] using hmem p (List.mem_cons_self _ _)
      | cons q rs =>
          simp only [joinSep, List.mem_append]
          push_neg
          exact ⟨⟨hmem p (List.mem_cons_self _ _), hsep⟩,
            ih (fun r hr => hmem r (List.mem_cons_of_mem _ hr))⟩

/-- The char data of a `joinWith` is the `joinSep` of the char data. -/
theorem joinWith_data (sep : String) (parts : List String) :
    (joinWith sep parts).data = joinSep sep.data (parts.map String.data) := by
  induction parts with
  | nil => rfl
  | cons s rest ih =>
      cases rest with
      | nil => rfl
      | cons t rs =>
          simp only [joinWith, joinSep, List.map_cons]
          rw [String.data_append, String.data_append, ih]
          simp only [List.map_cons, joinSep]

/-- The join of a list whose first piece is non-empty is non-empty. -/
theorem joinSep_ne_nil (sep : List Char) (p : List Char) (rest : List (List Char))
    (hp : p ≠ []) : joinSep sep (p :: rest) ≠ [] := by
  cases rest with
  | nil => simpa [joinSep] using hp
  | cons q rs => simp [joinSep, List.append_eq_nil, hp]

/-- dropWhile does nothing when the first element already fails the
predicate. -/
theorem dropWhile_ws_eq_self (l : List Char)
    (h : ∀ x, l.head? = some x → x.isWhitespace = false) :
    l.dropWhile Char.isWhitespace = l := by
  cases l with
  | nil => rfl
  | cons x xs => rw [List.dropWhile_cons, h x rfl]; simp

/-- Stripping does nothing when both ends are not whitespace. -/
theorem chars_strip_eq_self (l : List Char)
    (hh : ∀ x, l.head? = some x → x.isWhitespace = false)
    (hl : ∀ x, l.getLast? = some x → x.isWhitespace = false) :
    chars_strip l = l := by
  unfold chars_strip
  rw [dropWhile_ws_eq_self l hh]
  rw [dropWhile_ws_eq_self l.reverse
    (fun x hx => hl x (by rwa [List.head?_reverse] at hx))]
  exact List.reverse_reverse l

/-- Stripping absorbs one leading space. -/
theorem chars_strip_cons_space (l : List Char) :
    chars_strip (' ' :: l) = chars_strip l := by
  unfold chars_strip
  rw [List.dropWhile_cons]
  simp

/-- The head of a join is the head of its first piece, when that piece is
non-empty. -/
theorem head?_joinSep (sep : List Char) (p : List Char) (rest : List (List Char))
    (hp : p ≠ []) : (joinSep sep (p :: rest)).head? = p.head? := by
  cases rest with
  | nil => rfl
  | cons q rs =>
      obtain ⟨x, xs, rfl⟩ := List.exists_cons_of_ne_nil hp
      simp [joinSep]

/-- The last element of a join is the last element of its final piece,
which is one of the pieces and non-empty. -/
theorem getLast?_joinSep (sep : List Char) :
    ∀ (rest : List (List Char)) (p : List Char), (∀ q ∈ p :: rest, q ≠ []) →
      ∃ q, q ∈ p :: rest ∧ (joinSep sep (p :: rest)).getLast? = q.getLast? := by
  intro rest
  induction rest with
  | nil =>
      intro p _
      exact ⟨p, List.mem_cons_self _ _, rfl⟩
  | cons q rs ih =>
      intro p h
      obtain ⟨r, hr_mem, hr_eq⟩ := ih q (fun s hs => h s (List.mem_cons_of_mem _ hs))
      refine ⟨r, List.mem_cons_of_mem _ hr_mem, ?_⟩
      rw [← hr_eq]
      show ((p ++ sep) ++ joinSep sep (q :: rs)).getLast? = _
      exact List.getLast?_append_of_ne_nil _
        (joinSep_ne_nil sep q rs (h q (List.mem_cons_of_mem _ (List.mem_cons_self _ _))))

/-- The head of a list is a member. -/
theorem mem_of_head?_eq {α : Type} {l : List α} {x : α} (h : l.head? = some x) : x ∈ l := by
  cases l with
  | nil => cases h
  | cons a t =>
      cases h
      exact List.mem_cons_self _ _

/-- The last element of a list is a member. -/
theorem mem_of_getLast?_eq {α : Type} {l : List α} {x : α} (h : l.getLast? = some x) :
    x ∈ l := by
  rw [← List.head?_reverse] at h
  exact List.mem_reverse.mp (mem_of_head?_eq h)

/-- The parse loop skips every leading line that does not start with the
text Requires. -/
theorem requires_loop_append (pre ls : List String)
    (h : ∀ l ∈ pre, py_startswith l "Requires" = false) :
    requires_loop (pre ++ ls) = requires_loop ls := by
  induction pre with
  | nil => rfl
  | cons l rest ih =>
      simp only [List.cons_append, requires_loop]
      rw [if_neg (by simp [h l (List.mem_cons_self _ _)])]
      exact ih (fun x hx => h x (List.mem_cons_of_mem _ hx))

/-- Rebuilding strings from their char data is the identity. -/
theorem map_mk_map_data (l : List String) : (l.map String.data).map String.mk = l := by
  have h : (String.mk ∘ String.data) = id := funext fun _ => rfl
  simp [List.map_map, h]

/-- Reduction of the parse loop on a line that starts with Requires and
splits at the colon into exactly a label and a value. -/
theorem requires_loop_cons_eq (line : String) (rest : List String) (v : String)
    (hs : py_startswith line "Requires" = true)
    (hc : py_split line ":" = ["Requires", v]) :
    requires_loop (line :: rest) =
      (if py_strip v ≠ "" then
        Except.ok (((py_split (py_strip v) ", ").filter (fun dep => dep ≠ "")).map
          py_strip)
      else Except.ok []) := by
  simp only [requires_loop]
  rw [if_pos hs, hc]

/-- Claim C5, amended: the Requires value considered by the code is only
the text of the line between its first and second colon, and it is split
on the exact separator of a comma followed by a space.  Universally: for
every query output consisting of any lines that do not start with
Requires around a line of the form Requires, colon, space, then a
comma-space-separated list of identifiers (each non-empty and free of
commas, colons, newlines and whitespace), `get_dependencies` returns
exactly those identifiers in declaration order.  Concretely: a second
colon truncates the value (a:b, c yields just a), surrounding spaces of
an item are stripped, and an absent or empty field yields the empty
sequence. -/
theorem c5_requires_value_parsing :
    (∀ (package_name : String) (pre post ids : List String),
        (∀ l ∈ pre, '\n' ∉ l.data ∧ py_startswith l "Requires" = false) →
        (∀ l ∈ post, '\n' ∉ l.data) →
        ids ≠ [] →
        (∀ id ∈ ids, id.data ≠ [] ∧
          ∀ ch ∈ id.data, ch ≠ ',' ∧ ch ≠ ':' ∧ ch ≠ '\n' ∧ ch.isWhitespace = false) →
        get_dependencies package_name
            (PipShowResult.success
              (joinWith "\n" (pre ++ ("Requires: " ++ joinWith ", " ids) :: post))) =
          Except.ok ([], ids)) ∧
      get_dependencies "p" (PipShowResult.success "Requires: a:b, c") =
          Except.ok ([], ["a"]) ∧
      get_dependencies "p" (PipShowResult.success "Requires: foo , bar") =
          Except.ok ([], ["foo", "bar"]) ∧
      get_dependencies "p" (PipShowResult.success "Name: p\nVersion: 1.0") =
          Except.ok ([], []) ∧
      get_dependencies "p" (PipShowResult.success "Requires:") = Except.ok ([], []) := by
  refine ⟨?_, by decide, by decide, by decide, by decide⟩
  intro package_name pre post ids hpre hpost hne hids
  obtain ⟨id₁, irest, rfl⟩ := List.exists_cons_of_ne_nil hne
  have hid₁ := hids id₁ (List.mem_cons_self _ _)
  have hcomma : (", " : String).data = [',', ' '] := by decide
  have hnl : ("\n" : String).data = ['\n'] := by decide
  have hcolon : (":" : String).data = [':'] := by decide
  have hreq : ("Requires: " : String).data = "Requires".data ++ [':', ' '] := by decide
  have hv_data : (joinWith ", " (id₁ :: irest)).data
      = joinSep [',', ' '] (id₁.data :: irest.map String.data) := by
    rw [joinWith_data, hcomma, List.map_cons]
  have hline_data : ("Requires: " ++ joinWith ", " (id₁ :: irest)).data
      = "Requires".data ++ [':'] ++
        (' ' :: joinSep [',', ' '] (id₁.data :: irest.map String.data)) := by
    rw [String.data_append, hreq, hv_data]
    simp [List.append_assoc]
  have hv_avoid : ∀ t : Char, t ≠ ' ' → t ≠ ',' →
      (∀ id ∈ id₁ :: irest, ∀ x ∈ id.data, x ≠ t) →
      t ∉ joinSep [',', ' '] (id₁.data :: irest.map String.data) := by
    intro t ht1 ht2 hcond
    apply not_mem_joinSep
    · intro hmem
      rcases List.mem_cons.mp hmem with h | h
      · exact ht2 h
      · exact ht1 (by simpa using h)
    · intro pD hpD
      rcases List.mem_cons.mp hpD with h | h
      · subst h
        intro hmem
        exact hcond id₁ (List.mem_cons_self _ _) t hmem rfl
      · obtain ⟨l, hl, rfl⟩ := List.mem_map.mp h
        intro hmem
        exact hcond l (List.mem_cons_of_mem _ hl) t hmem rfl
  have hv_nl : '\n' ∉ joinSep [',', ' '] (id₁.data :: irest.map String.data) :=
    hv_avoid '\n' (by decide) (by decide)
      (fun id hid x hx h => ((hids id hid).2 x hx).2.2.1 h)
  have hv_colon : ':' ∉ joinSep [',', ' '] (id₁.data :: irest.map String.data) :=
    hv_avoid ':' (by decide) (by decide)
      (fun id hid x hx h => ((hids id hid).2 x hx).2.1 h)
  have hline_nl : '\n' ∉ ("Requires: " ++ joinWith ", " (id₁ :: irest)).data := by
    intro h
    rw [hline_data] at h
    rcases List.mem_append.mp h with h1 | h2
    · exact absurd h1 (by decide)
    · rcases List.mem_cons.mp h2 with h3 | h4
      · exact absurd h3 (by decide)
      · exact hv_nl h4
  have hsplitlines :
      py_splitlines
          (joinWith "\n" (pre ++ ("Requires: " ++ joinWith ", " (id₁ :: irest)) :: post))
        = pre ++ ("Requires: " ++ joinWith ", " (id₁ :: irest)) :: post := by
    unfold py_splitlines py_split
    rw [joinWith_data, hnl]
    rw [chars_split_joinSep '\n' []
      ((pre ++ ("Requires: " ++ joinWith ", " (id₁ :: irest)) :: post).map String.data) _
      (by simp) ?_ (Nat.le_refl _)]
    · exact map_mk_map_data _
    · intro pD hpD
      obtain ⟨l, hl, rfl⟩ := List.mem_map.mp hpD
      rcases List.mem_append.mp hl with h | h
      · exact (hpre l h).1
      · rcases List.mem_cons.mp h with h1 | h2
        · subst h1; exact hline_nl
        · exact hpost l h2
  have hskip :
      requires_loop (pre ++ ("Requires: " ++ joinWith ", " (id₁ :: irest)) :: post)
        = requires_loop (("Requires: " ++ joinWith ", " (id₁ :: irest)) :: post) :=
    requires_loop_append pre _ (fun l hl => (hpre l hl).2)
  have hstarts : py_startswith ("Requires: " ++ joinWith ", " (id₁ :: irest)) "Requires"
      = true := by
    unfold py_startswith
    rw [hline_data, List.append_assoc]
    exact chars_startsWith_self_append "Requires".data _
  have hsplit_colon : py_split ("Requires: " ++ joinWith ", " (id₁ :: irest)) ":"
      = ["Requires",
          String.mk (' ' :: joinSep [',', ' '] (id₁.data :: irest.map String.data))] := by
    unfold py_split
    rw [hcolon, hline_data]
    rw [chars_split_append ':' [] "Requires".data _ _ (by decide) (Nat.le_refl _)]
    rw [chars_split_of_not_mem ':' [] _ _ ?_]
    · rfl
    · intro h
      rcases List.mem_cons.mp h with h1 | h2
      · exact absurd h1 (by decide)
      · exact hv_colon h2
  have hstrip_v : chars_strip (joinSep [',', ' '] (id₁.data :: irest.map String.data))
      = joinSep [',', ' '] (id₁.data :: irest.map String.data) := by
    apply chars_strip_eq_self
    · intro x hx
      rw [head?_joinSep [',', ' '] id₁.data (irest.map String.data) hid₁.1] at hx
      exact (hid₁.2 x (mem_of_head?_eq hx)).2.2.2
    · intro x hx
      have hqne : ∀ q ∈ id₁.data :: irest.map String.data, q ≠ [] := by
        intro q hq
        rcases List.mem_cons.mp hq with h | h
        · subst h; exact hid₁.1
        · obtain ⟨l, hl, rfl⟩ := List.mem_map.mp h
          exact (hids l (List.mem_cons_of_mem _ hl)).1
      obtain ⟨q, hq_mem, hq_eq⟩ :=
        getLast?_joinSep [',', ' '] (irest.map String.data) id₁.data hqne
      rw [hq_eq] at hx
      have hx_mem := mem_of_getLast?_eq hx
      rcases List.mem_cons.mp hq_mem with h | h
      · subst h; exact (hid₁.2 x hx_mem).2.2.2
      · obtain ⟨l, hl, rfl⟩ := List.mem_map.mp h
        exact ((hids l (List.mem_cons_of_mem _ hl)).2 x hx_mem).2.2.2
  have hstrip :
      py_strip (String.mk (' ' :: joinSep [',', ' '] (id₁.data :: irest.map String.data)))
        = joinWith ", " (id₁ :: irest) := by
    unfold py_strip
    show String.mk (chars_strip (' ' :: _)) = _
    rw [chars_strip_cons_space, hstrip_v, ← hv_data]
  have hv_ne : joinWith ", " (id₁ :: irest) ≠ "" := by
    intro h
    have hd : (joinWith ", " (id₁ :: irest)).data = [] := by rw [h]
    rw [hv_data] at hd
    exact joinSep_ne_nil _ _ _ hid₁.1 hd
  have hsplit_comma : py_split (joinWith ", " (id₁ :: irest)) ", " = id₁ :: irest := by
    unfold py_split
    rw [hcomma, hv_data]
    rw [chars_split_joinSep ',' [' '] (id₁.data :: irest.map String.data) _
      (by simp) ?_ (Nat.le_refl _)]
    · exact map_mk_map_data (id₁ :: irest)
    · intro pD hpD
      rcases List.mem_cons.mp hpD with h | h
      · subst h
        intro hmem
        exact ((hids id₁ (List.mem_cons_self _ _)).2 ',' hmem).1 rfl
      · obtain ⟨l, hl, rfl⟩ := List.mem_map.mp h
        intro hmem
        exact ((hids l (List.mem_cons_of_mem _ hl)).2 ',' hmem).1 rfl
  have hne_str : ∀ id ∈ id₁ :: irest, id ≠ "" := by
    intro id hid h
    have hd : id.data = [] := by rw [h]
    exact (hids id hid).1 hd
  have hfilter : (id₁ :: irest).filter (fun dep => dep ≠ "") = id₁ :: irest :=
    List.filter_eq_self.mpr (fun a ha => by simpa using hne_str a ha)
  have hmap : (id₁ :: irest).map py_strip = id₁ :: irest := by
    have hall : ∀ id ∈ id₁ :: irest, py_strip id = id := by
      intro id hid
      unfold py_strip
      have hsf : chars_strip id.data = id.data := by
        apply chars_strip_eq_self
        · intro x hx
          exact ((hids id hid).2 x (mem_of_head?_eq hx)).2.2.2
        · intro x hx
          exact ((hids id hid).2 x (mem_of_getLast?_eq hx)).2.2.2
      rw [hsf]
    rw [List.map_congr_left hall]
    simp
  simp only [get_dependencies]
  rw [hsplitlines, hskip,
    requires_loop_cons_eq _ post _ hstarts hsplit_colon, hstrip, if_pos hv_ne,
    hsplit_comma, hfilter, hmap]

/-- Witness for claim C5 at a concrete input discharging every hypothesis
of the universal part: one preceding line, one following line and the
identifiers foo and bar. -/
theorem c5_parsing_witness :
    ((∀ l ∈ (["Name: p"] : List String), '\n' ∉ l.data ∧
        py_startswith l "Requires" = false) ∧
      (∀ l ∈ (["Required-by: x"] : List String), '\n' ∉ l.data) ∧
      (["foo", "bar"] : List String) ≠ [] ∧
      (∀ id ∈ (["foo", "bar"] : List String), id.data ≠ [] ∧
        ∀ ch ∈ id.data, ch ≠ ',' ∧ ch ≠ ':' ∧ ch ≠ '\n' ∧ ch.isWhitespace = false)) ∧
      get_dependencies "p"
          (PipShowResult.success
            (joinWith "\n"
              (["Name: p"] ++ ("Requires: " ++ joinWith ", " ["foo", "bar"]) ::
                ["Required-by: x"]))) =
        Except.ok ([], ["foo", "bar"]) :=
  ⟨⟨by decide, by decide, by decide, by decide⟩,
    c5_requires_value_parsing.1 "p" ["Name: p"] ["Required-by: x"] ["foo", "bar"]
      (by decide) (by decide) (by decide) (by decide)⟩
